import Mathlib

/-
Verification of the loopy batch-command runner (src/loopy/models.py,
src/loopy/loop.py, src/loopy/cli.py).

The data model and every operation below are transcribed from the Python
source.  The underlying storage engine (SQLModel session / relational
store) is an external collaborator of the repository; its behaviour is
modelled by the explicit `Store` record below following the Entity Store
contract of the specification (items of a loop are the stored items with
that `loop_id` in insertion order; item ids are assigned from a
monotonically increasing counter, i.e. autoincrement; deleting a loop
cascades to its items).  A stateful Python method `Loop.m(self, ...)`
becomes a pure function `Loop.m : Store → ... → Except LoopError Store`
(raising `ValueError` becomes returning `.error`), the subprocess call
becomes an explicit executor argument `exec_ : String → Int` mapping the
concrete command line to the process exit code, and Python's
`str.replace` becomes `pyReplace` below (identical left-to-right,
non-overlapping, global replacement for any non-empty pattern; the
pattern used by the program, "\x7b\x7d", is never empty).

The `created_at` timestamp of a loop is omitted from the model: it is
only used to order the output of `list_all`, which no verified operation
depends on.
-/

namespace Loopy

/-- `ItemStatus` from models.py: the closed three-valued lifecycle state. -/
inductive ItemStatus where
  | PENDING
  | SUCCESS
  | FAILED
deriving DecidableEq

/-- `LoopItem` from models.py: one row of the `loop_items` table. -/
structure LoopItem where
  id : Nat
  loop_id : String
  item : String
  status : ItemStatus
  attempts : Nat
  last_error : Option String
deriving DecidableEq

/-- `LoopModel` from models.py: one row of the `loops` table
(`created_at` omitted, see the header comment). -/
structure LoopModel where
  id : String
  command : String
  status : String
deriving DecidableEq

/-- The relational store holding both tables.  `nextItemId` is the
autoincrement counter for item primary keys.  Modelled from the spec:
the storage engine itself is outside the repository source. -/
structure Store where
  loops : List LoopModel
  items : List LoopItem
  nextItemId : Nat
deriving DecidableEq

/-- Errors raised by the `Loop` methods (`ValueError("... not found")`
and `ValueError("... already exists")` in loop.py). -/
inductive LoopError where
  | NotFound (lid : String)
  | AlreadyExists (lid : String)
deriving DecidableEq

/-! ### String machinery: Python's `str.replace` and `" ".join` -/

/-- `startsWith pat l` : does `l` start with `pat`?  (Helper for the
transcription of Python's `str.replace`.) -/
def startsWith : List Char → List Char → Bool
  | [], _ => true
  | _ :: _, [] => false
  | p :: ps, c :: cs => p == c && startsWith ps cs

/-- `containsSub pat l` : does `pat` occur as a contiguous substring of
`l`?  This is Python's `pat in l` on strings. -/
def containsSub (pat : List Char) : List Char → Bool
  | [] => pat.isEmpty
  | c :: rest => startsWith pat (c :: rest) || containsSub pat rest

/-- Worker for `replaceL`: when `skip` is positive the character is
part of an occurrence that was already replaced and is dropped. -/
def replaceGo (pat rep : List Char) : List Char → Nat → List Char
  | [], _ => []
  | c :: rest, 0 =>
    if startsWith pat (c :: rest) then
      rep ++ replaceGo pat rep rest (pat.length - 1)
    else
      c :: replaceGo pat rep rest 0
  | _ :: rest, skip + 1 => replaceGo pat rep rest skip

/-- Left-to-right, non-overlapping, global replacement of `pat` by `rep`
in a character list: Python's `str.replace` for any non-empty `pat`. -/
def replaceL (pat rep s : List Char) : List Char :=
  replaceGo pat rep s 0

/-- Python's `s.replace(pat, rep)` lifted to `String`. -/
def pyReplace (s pat rep : String) : String :=
  ⟨replaceL pat.data rep.data s.data⟩

/-- The placeholder token `"\x7b\x7d"` of the command template. -/
def placeholder : String := "\x7b\x7d"

/-- The placeholder as a character list. -/
def placeholderL : List Char := ['\x7b', '\x7d']

/-- Python's `" ".join(args)`. -/
def joinSpace : List String → String
  | [] => ""
  | [a] => a
  | a :: rest => a ++ " " ++ joinSpace rest

/-! ### Store primitives (the Entity Store contract) -/

/-- `session.get(LoopModel, lid)`. -/
def getLoop (s : Store) (lid : String) : Option LoopModel :=
  s.loops.find? (fun l => l.id == lid)

/-- `loop_model.items`: the stored items with this `loop_id`, in
insertion order.  Modelled from the spec: the ORM relationship lives in
the storage layer, `get-items(loop_id) in insertion order`. -/
def itemsOf (s : Store) (lid : String) : List LoopItem :=
  s.items.filter (fun it => it.loop_id == lid)

/-- `session.add(LoopItem(loop_id=lid, item=text))` followed by commit:
a fresh PENDING row with the next autoincrement id. -/
def createItem (s : Store) (lid text : String) : Store :=
  { s with
    items := s.items ++ [⟨s.nextItemId, lid, text, ItemStatus.PENDING, 0, none⟩],
    nextItemId := s.nextItemId + 1 }

/-- Adding one row per element of `texts` (the `for item in items:
session.add(...)` pattern of loop.py). -/
def createItemsFold (lid : String) (s : Store) (texts : List String) : Store :=
  texts.foldl (fun st t => createItem st lid t) s

/-- In-place mutation of the item with primary key `iid` followed by
`session.commit()`. -/
def updateItem (s : Store) (iid : Nat) (f : LoopItem → LoopItem) : Store :=
  { s with items := s.items.map (fun m => if m.id == iid then f m else m) }

/-- Primary-key lookup of an item row. -/
def findItem (s : Store) (iid : Nat) : Option LoopItem :=
  s.items.find? (fun m => m.id == iid)

/-- `session.delete(loop_model)` with the cascade of the store.
Modelled from the spec: `delete-loop(id) cascading to all its items`
(the source comment at loop.py:159 states the same contract). -/
def deleteLoopCascade (s : Store) (lid : String) : Store :=
  { s with
    loops := s.loops.filter (fun l => !(l.id == lid)),
    items := s.items.filter (fun it => !(it.loop_id == lid)) }

/-! ### The Loop operations (loop.py) -/

/-- The list comprehension at loop.py:76:
`[item for item in loop_model.items if item.status == ItemStatus.PENDING]`. -/
def pendingOf (s : Store) (lid : String) : List LoopItem :=
  (itemsOf s lid).filter (fun it => it.status == ItemStatus.PENDING)

/-- loop.py:87: `cmd = loop_model.command.replace("\x7b\x7d", item_model.item)`. -/
def buildCmd (command item : String) : String :=
  pyReplace command placeholder item

/-- Did the spawned process for this item exit with code 0? -/
def itemOk (exec_ : String → Int) (command : String) (it : LoopItem) : Bool :=
  exec_ (buildCmd command it.item) == 0

/-- The record written back for a processed item (loop.py:104-113):
exit code 0 keeps `attempts` and `last_error` and sets SUCCESS; a
non-zero exit code sets FAILED, increments `attempts` and stores the
message naming the exit code. -/
def itemOutcome (exec_ : String → Int) (command : String) (it : LoopItem) : LoopItem :=
  let rc := exec_ (buildCmd command it.item)
  if rc == 0 then
    { it with status := ItemStatus.SUCCESS }
  else
    { it with
      status := ItemStatus.FAILED,
      attempts := it.attempts + 1,
      last_error := some ("Command failed with exit code " ++ toString rc) }

/-- The `for item_model in pending_items:` loop body of loop.py:85-117,
threading the store and the `success` flag; on a failure with
`continue_on_failure` false the loop breaks. -/
def runItems (exec_ : String → Int) (command : String) (cont : Bool) :
    Store → List LoopItem → Bool → Bool × Store
  | s, [], success => (success, s)
  | s, it :: rest, success =>
    let rc := exec_ (buildCmd command it.item)
    if rc == 0 then
      runItems exec_ command cont
        (updateItem s it.id (fun m => { m with status := ItemStatus.SUCCESS })) rest success
    else
      let s' := updateItem s it.id (fun m =>
        { m with
          status := ItemStatus.FAILED,
          attempts := m.attempts + 1,
          last_error := some ("Command failed with exit code " ++ toString rc) })
      if cont then runItems exec_ command cont s' rest false
      else (false, s')

/-- The items the run loop actually touches: all of the pending list
when `cont` is true, otherwise the prefix up to and including the first
failing item. -/
def processedList (exec_ : String → Int) (command : String) (cont : Bool) :
    List LoopItem → List LoopItem
  | [] => []
  | it :: rest =>
    if itemOk exec_ command it then it :: processedList exec_ command cont rest
    else if cont then it :: processedList exec_ command cont rest
    else [it]

/-- `Loop.run` (loop.py:70-138).  The timeout branch of the source is
dead code behind `assert 0` and is not modelled (spec §9 design note). -/
def Loop.run (exec_ : String → Int) (s : Store) (lid : String) (cont : Bool) :
    Except LoopError (Bool × Store) :=
  match getLoop s lid with
  | none => .error (.NotFound lid)
  | some lm =>
    let pending := pendingOf s lid
    if pending.isEmpty then .ok (true, s)
    else .ok (runItems exec_ lm.command cont s pending true)

/-- `Loop.reset` (loop.py:140-151). -/
def Loop.reset (s : Store) (lid : String) : Except LoopError Store :=
  match getLoop s lid with
  | none => .error (.NotFound lid)
  | some _ =>
    .ok { s with items := s.items.map (fun it =>
      if it.loop_id == lid then
        { it with status := ItemStatus.PENDING, attempts := 0, last_error := none }
      else it) }

/-- `Loop.delete` (loop.py:153-161). -/
def Loop.delete (s : Store) (lid : String) : Except LoopError Store :=
  match getLoop s lid with
  | none => .error (.NotFound lid)
  | some _ => .ok (deleteLoopCascade s lid)

/-- `Loop.update_command` (loop.py:163-170). -/
def Loop.update_command (s : Store) (lid command : String) : Except LoopError Store :=
  match getLoop s lid with
  | none => .error (.NotFound lid)
  | some _ =>
    .ok { s with loops := s.loops.map (fun l =>
      if l.id == lid then { l with command := command } else l) }

/-- One step of the item-copy loop of `Loop.copy_to` (loop.py:188-196):
a fresh row for the target loop copying text, status, attempts and
last_error. -/
def copyStep (tgt : String) (st : Store) (it : LoopItem) : Store :=
  { st with
    items := st.items ++ [⟨st.nextItemId, tgt, it.item, it.status, it.attempts, it.last_error⟩],
    nextItemId := st.nextItemId + 1 }

/-- `Loop.copy_to` (loop.py:172-198). -/
def Loop.copy_to (s : Store) (srcId tgtId : String) : Except LoopError Store :=
  match getLoop s srcId with
  | none => .error (.NotFound srcId)
  | some lm =>
    match getLoop s tgtId with
    | some _ => .error (.AlreadyExists tgtId)
    | none =>
      let s1 : Store := { s with loops := s.loops ++ [⟨tgtId, lm.command, "active"⟩] }
      .ok ((itemsOf s1 srcId).foldl (copyStep tgtId) s1)

/-- `Loop.add_items` (loop.py:200-205).  The source performs no
existence check on the loop id: it adds the rows and commits
unconditionally. -/
def Loop.add_items (s : Store) (lid : String) (texts : List String) :
    Except LoopError Store :=
  .ok (createItemsFold lid s texts)

/-- `Loop.replace_items` (loop.py:207-222). -/
def Loop.replace_items (s : Store) (lid : String) (texts : List String) :
    Except LoopError Store :=
  match getLoop s lid with
  | none => .error (.NotFound lid)
  | some _ =>
    .ok (createItemsFold lid
      { s with items := s.items.filter (fun it => !(it.loop_id == lid)) } texts)

/-- `Loop.list_items` (loop.py:224-229). -/
def Loop.list_items (s : Store) (lid : String) : List (String × ItemStatus × Nat) :=
  match getLoop s lid with
  | none => []
  | some _ => (itemsOf s lid).map (fun it => (it.item, it.status, it.attempts))

/-- `Loop.get_progress` (loop.py:231-243). -/
def Loop.get_progress (s : Store) (lid : String) : Nat × Nat × Nat × Nat :=
  match getLoop s lid with
  | none => (0, 0, 0, 0)
  | some _ =>
    let items := itemsOf s lid
    ((items.filter (fun it => it.status == ItemStatus.PENDING)).length,
     (items.filter (fun it => it.status == ItemStatus.FAILED)).length,
     (items.filter (fun it => it.status == ItemStatus.SUCCESS)).length,
     items.length)

/-- The placeholder-appending step of the CLI `create` command
(cli.py:75-77): if no argument is the placeholder token, append it,
then join the arguments with spaces. -/
def cliCreateCommand (args : List String) : String :=
  joinSpace (if args.contains placeholder then args else args ++ [placeholder])

/-- Well-formedness of a store reachable through the API: item ids are
below the autoincrement counter and pairwise distinct, loop ids are
pairwise distinct, and every item references an existing loop
(referential integrity of the `loop_id` foreign key, spec §6). -/
def StoreWF (s : Store) : Prop :=
  (∀ it ∈ s.items, it.id < s.nextItemId) ∧
  (s.items.map (fun it => it.id)).Nodup ∧
  (s.loops.map (fun l => l.id)).Nodup ∧
  (∀ it ∈ s.items, ∃ l ∈ s.loops, l.id = it.loop_id)

/-- Fresh PENDING rows for `texts` with ids counting up from `n`:
characterizes `createItemsFold` in the theorems below. -/
def stampNew (lid : String) : Nat → List String → List LoopItem
  | _, [] => []
  | n, t :: rest => ⟨n, lid, t, ItemStatus.PENDING, 0, none⟩ :: stampNew lid (n + 1) rest

/-- Copies of the given rows for loop `tgt` with ids counting up from
`n`: characterizes the item-copy fold of `copy_to`. -/
def stampCopies (tgt : String) : Nat → List LoopItem → List LoopItem
  | _, [] => []
  | n, it :: rest =>
    ⟨n, tgt, it.item, it.status, it.attempts, it.last_error⟩ :: stampCopies tgt (n + 1) rest

/-! ### Concrete fixtures used by the witness theorems -/

/-- The empty store. -/
def sEmpty : Store := ⟨[], [], 0⟩

/-- The loop of the spec scenario: `create "L" "echo \x7b\x7d" ["a", "b"]`. -/
def lmEx : LoopModel := ⟨"L", "echo \x7b\x7d", "active"⟩

/-- The store after creating loop `"L"` with items `"a"`, `"b"`. -/
def sEx : Store :=
  ⟨[lmEx],
   [⟨0, "L", "a", ItemStatus.PENDING, 0, none⟩,
    ⟨1, "L", "b", ItemStatus.PENDING, 0, none⟩], 2⟩

/-- A fully processed store for loop `"L"` (no pending items). -/
def sDone : Store := ⟨[lmEx], [⟨0, "L", "a", ItemStatus.SUCCESS, 0, none⟩], 1⟩

/-- A stub executor that always exits 0. -/
def execZero : String → Int := fun _ => 0

/-- A stub executor that exits 1 for item `"a"` of the scenario loop
and 0 otherwise. -/
def execFailA : String → Int := fun c => if c == "echo a" then 1 else 0

end Loopy

namespace Loopy

/-! ### Helper lemmas about the string machinery -/

theorem placeholder_data : placeholder.data = placeholderL := by decide

theorem str_eq_of_data (a b : String) (h : a.data = b.data) : a = b := by
  cases a; cases b; exact congrArg String.mk h

theorem startsWith_append_self (pat t : List Char) : startsWith pat (pat ++ t) = true := by
  induction pat with
  | nil => simp [startsWith]
  | cons p ps ih => simp [startsWith, ih]

theorem containsSub_nil_left (y : List Char) : containsSub [] y = true := by
  cases y <;> simp [containsSub, startsWith, List.isEmpty]

theorem containsSub_of_startsWith (pat l : List Char) (h : startsWith pat l = true) :
    containsSub pat l = true := by
  cases l with
  | nil =>
    cases pat with
    | nil => simp [containsSub, List.isEmpty]
    | cons p ps => simp [startsWith] at h
  | cons c cs => simp [containsSub, h]

theorem containsSub_append_left (pat x t : List Char) (h : containsSub pat t = true) :
    containsSub pat (x ++ t) = true := by
  induction x with
  | nil => simpa using h
  | cons c x ih => simp [containsSub, ih]

theorem startsWith_append_of (pat l y : List Char) (h : startsWith pat l = true) :
    startsWith pat (l ++ y) = true := by
  induction pat generalizing l with
  | nil => simp [startsWith]
  | cons p ps ih =>
    cases l with
    | nil => simp [startsWith] at h
    | cons c cs =>
      simp only [startsWith, Bool.and_eq_true] at h ⊢
      exact ⟨h.1, ih cs h.2⟩

theorem containsSub_append_right (pat l y : List Char) (h : containsSub pat l = true) :
    containsSub pat (l ++ y) = true := by
  induction l with
  | nil =>
    have : pat = [] := by
      cases pat with
      | nil => rfl
      | cons p ps => simp [containsSub, List.isEmpty] at h
    subst this
    exact containsSub_nil_left _
  | cons c cs ih =>
    simp only [containsSub, Bool.or_eq_true] at h
    rcases h with h | h
    · have h2 := startsWith_append_of pat (c :: cs) y h
      simp only [List.cons_append] at h2
      simp [containsSub, h2]
    · simp [containsSub, ih h]

theorem joinSpace_cons₂ (a b : String) (r : List String) :
    (joinSpace (a :: b :: r)).data = a.data ++ ' ' :: (joinSpace (b :: r)).data := by
  simp [joinSpace, String.data_append]

theorem joinSpace_concat (args : List String) (x : String) (h : args ≠ []) :
    (joinSpace (args ++ [x])).data = (joinSpace args).data ++ (' ' :: x.data) := by
  induction args with
  | nil => exact absurd rfl h
  | cons a rest ih =>
    cases rest with
    | nil => simp [joinSpace, String.data_append]
    | cons b rest' =>
      have h2 : (joinSpace ((a :: b :: rest') ++ [x])).data
          = a.data ++ ' ' :: (joinSpace ((b :: rest') ++ [x])).data := by
        simpa using joinSpace_cons₂ a b (rest' ++ [x])
      rw [h2, ih (by simp), joinSpace_cons₂]
      simp

theorem mem_join_containsSub (args : List String) (x : String) (hx : x ∈ args) :
    containsSub x.data (joinSpace args).data = true := by
  induction args with
  | nil => simp at hx
  | cons a rest ih =>
    rcases List.mem_cons.mp hx with rfl | hx
    · cases rest with
      | nil =>
        have : joinSpace [x] = x := rfl
        rw [this]
        cases hd : x.data with
        | nil => simp [hd, containsSub, List.isEmpty]
        | cons c cs =>
          exact containsSub_of_startsWith _ _
            (by simpa using startsWith_append_self (c :: cs) [])
      | cons b rest' =>
        rw [joinSpace_cons₂]
        exact containsSub_of_startsWith _ _
          (by simpa using startsWith_append_self x.data (' ' :: (joinSpace (b :: rest')).data))
    · cases rest with
      | nil => simp at hx
      | cons b rest' =>
        rw [joinSpace_cons₂]
        have := ih hx
        calc containsSub x.data (a.data ++ ' ' :: (joinSpace (b :: rest')).data)
            = containsSub x.data ((a.data ++ [' ']) ++ (joinSpace (b :: rest')).data) := by
              simp
          _ = true := containsSub_append_left _ _ _ this

end Loopy

namespace Loopy

theorem containsSub_ph_false_iff (c : Char) (t : List Char) :
    containsSub placeholderL (c :: t) = false ↔
      startsWith placeholderL (c :: t) = false ∧ containsSub placeholderL t = false := by
  simp [containsSub]

theorem startsWith_ph (c : Char) (t : List Char) :
    startsWith placeholderL (c :: t) = (('\x7b' == c) && startsWith ['\x7d'] t) := by
  simp [placeholderL, startsWith]

theorem startsWith_close_concat (pre add : List Char) (hadd : startsWith ['\x7d'] add = false)
    (h : startsWith ['\x7d'] pre = false) : startsWith ['\x7d'] (pre ++ add) = false := by
  cases pre with
  | nil => simpa using hadd
  | cons d pre' =>
    simp only [startsWith, List.cons_append] at h ⊢
    simpa using (by simpa using h : ('\x7d' == d) = false)

theorem containsSub_ph_concat (pre add : List Char)
    (hadd2 : startsWith ['\x7d'] add = false)
    (h : containsSub placeholderL pre = false) :
    containsSub placeholderL (pre ++ add) =
      containsSub placeholderL add := by
  induction pre with
  | nil => simp
  | cons c pre' ih =>
    obtain ⟨h1, h2⟩ := (containsSub_ph_false_iff c pre').mp h
    have hsw : startsWith placeholderL (c :: (pre' ++ add)) = false := by
      rw [startsWith_ph]
      rw [startsWith_ph] at h1
      rcases Bool.and_eq_false_iff.mp h1 with hc | hc
      · simp [hc]
      · simp [startsWith_close_concat pre' add hadd2 hc]
    have := ih h2
    have hstep : containsSub placeholderL ((c :: pre') ++ add)
        = (startsWith placeholderL (c :: (pre' ++ add)) || containsSub placeholderL (pre' ++ add)) :=
      rfl
    rw [hstep, hsw, Bool.false_or]
    exact this

end Loopy

namespace Loopy

theorem replaceL_ph_concat (rep pre : List Char)
    (h : containsSub placeholderL pre = false) :
    replaceL placeholderL rep (pre ++ placeholderL) = pre ++ rep := by
  induction pre with
  | nil => simp [placeholderL, replaceL, replaceGo, startsWith]
  | cons c pre' ih =>
    obtain ⟨h1, h2⟩ := (containsSub_ph_false_iff c pre').mp h
    have hsw : startsWith placeholderL (c :: (pre' ++ placeholderL)) = false := by
      rw [startsWith_ph]
      rw [startsWith_ph] at h1
      rcases Bool.and_eq_false_iff.mp h1 with hc | hc
      · simp [hc]
      · have hph : startsWith ['\x7d'] placeholderL = false := by decide
        simp [startsWith_close_concat pre' placeholderL hph hc]
    have hstep : replaceL placeholderL rep ((c :: pre') ++ placeholderL)
        = if startsWith placeholderL (c :: (pre' ++ placeholderL)) then
            rep ++ replaceGo placeholderL rep (pre' ++ placeholderL) (placeholderL.length - 1)
          else c :: replaceGo placeholderL rep (pre' ++ placeholderL) 0 := rfl
    rw [hstep, if_neg (by simp [hsw])]
    exact congrArg (fun t => c :: t) (ih h2)

theorem contains_false_of_not_mem (args : List String) (x : String)
    (h : x ∉ args) : args.contains x = false := by
  by_cases hc : args.contains x = true
  · obtain ⟨b, hb, hbeq⟩ := List.contains_iff_exists_mem_beq.mp hc
    exact absurd (by rwa [eq_of_beq hbeq]) h
  · simpa using hc

/-- C4: for every command template lacking the placeholder token,
`create` appends the placeholder token, so that when `run` builds a
concrete command the item's text is substituted exactly once — the
concrete command is the joined template followed by a space and the
item's text — and distinct item texts give distinct concrete commands
(the substitution map is injective). -/
theorem C4_placeholder_appended (args : List String) (h0 : args ≠ [])
    (h1 : containsSub placeholderL (joinSpace args).data = false) :
    cliCreateCommand args = joinSpace args ++ " " ++ placeholder ∧
    (∀ item : String, buildCmd (cliCreateCommand args) item = joinSpace args ++ " " ++ item) ∧
    (∀ i1 i2 : String,
      buildCmd (cliCreateCommand args) i1 = buildCmd (cliCreateCommand args) i2 → i1 = i2) := by
  have hnotmem : placeholder ∉ args := by
    intro hc
    have := mem_join_containsSub args placeholder hc
    rw [placeholder_data, h1] at this
    cases this
  have hcc : cliCreateCommand args = joinSpace (args ++ [placeholder]) := by
    simp [cliCreateCommand, hnotmem]
  have hdata : (cliCreateCommand args).data
      = ((joinSpace args).data ++ [' ']) ++ placeholderL := by
    rw [hcc, joinSpace_concat args placeholder h0, placeholder_data]
    simp
  have hpre : containsSub placeholderL ((joinSpace args).data ++ [' ']) = false := by
    rw [containsSub_ph_concat _ [' '] (by decide) h1]
    decide
  have hbuild : ∀ item : String,
      buildCmd (cliCreateCommand args) item = joinSpace args ++ " " ++ item := by
    intro item
    apply str_eq_of_data
    show replaceL placeholder.data item.data (cliCreateCommand args).data
        = (joinSpace args ++ " " ++ item).data
    rw [placeholder_data, hdata, replaceL_ph_concat item.data _ hpre]
    simp [String.data_append]
  refine ⟨?_, hbuild, ?_⟩
  · apply str_eq_of_data
    rw [hdata]
    simp [String.data_append, placeholder_data]
  · intro i1 i2 h12
    rw [hbuild i1, hbuild i2] at h12
    have := congrArg String.data h12
    simp only [String.data_append] at this
    exact str_eq_of_data _ _ (List.append_cancel_left this)

end Loopy

namespace Loopy

/-! ### Helper lemmas about the run loop -/

theorem itemOutcome_id (exec_ : String → Int) (cmd : String) (it : LoopItem) :
    (itemOutcome exec_ cmd it).id = it.id := by
  by_cases h : exec_ (buildCmd cmd it.item) == 0 <;> simp [itemOutcome, h]

theorem itemOutcome_loop_id (exec_ : String → Int) (cmd : String) (it : LoopItem) :
    (itemOutcome exec_ cmd it).loop_id = it.loop_id := by
  by_cases h : exec_ (buildCmd cmd it.item) == 0 <;> simp [itemOutcome, h]

theorem itemOutcome_status (exec_ : String → Int) (cmd : String) (it : LoopItem) :
    (itemOutcome exec_ cmd it).status = ItemStatus.SUCCESS ∨
    (itemOutcome exec_ cmd it).status = ItemStatus.FAILED := by
  by_cases h : exec_ (buildCmd cmd it.item) == 0 <;> simp [itemOutcome, h]

theorem eq_of_mem_of_id (l : List LoopItem) (hnd : (l.map (fun it => it.id)).Nodup)
    (x y : LoopItem) (hx : x ∈ l) (hy : y ∈ l) (h : x.id = y.id) : x = y :=
  List.inj_on_of_nodup_map hnd hx hy h

theorem updateItem_ids (s : Store) (iid : Nat) (f : LoopItem → LoopItem)
    (hf : ∀ m, (f m).id = m.id) :
    (updateItem s iid f).items.map (fun it => it.id) = s.items.map (fun it => it.id) := by
  simp only [updateItem, List.map_map]
  apply List.map_congr_left
  intro m _
  by_cases h : m.id == iid <;> simp [Function.comp, h, hf]

theorem mem_updateItem (s : Store) (iid : Nat) (f : LoopItem → LoopItem)
    (x : LoopItem) (hx : x ∈ s.items) (hne : x.id ≠ iid) :
    x ∈ (updateItem s iid f).items := by
  simp only [updateItem]
  exact List.mem_map.mpr ⟨x, hx, by simp [hne]⟩

theorem processedList_subset (exec_ : String → Int) (cmd : String) (cont : Bool) :
    ∀ (P : List LoopItem) (x : LoopItem), x ∈ processedList exec_ cmd cont P → x ∈ P := by
  intro P
  induction P with
  | nil => intro x hx; simp [processedList] at hx
  | cons it rest ih =>
    intro x hx
    simp only [processedList] at hx
    by_cases h : itemOk exec_ cmd it = true
    · rw [if_pos h] at hx
      rcases List.mem_cons.mp hx with rfl | hx
      · exact List.mem_cons_self _ _
      · exact List.mem_cons_of_mem _ (ih _ hx)
    · rw [if_neg h] at hx
      by_cases hc : cont = true
      · rw [if_pos hc] at hx
        rcases List.mem_cons.mp hx with rfl | hx
        · exact List.mem_cons_self _ _
        · exact List.mem_cons_of_mem _ (ih _ hx)
      · rw [if_neg hc] at hx
        rcases List.mem_cons.mp hx with rfl | hx
        · exact List.mem_cons_self _ _
        · simp at hx

theorem processedList_cont_true (exec_ : String → Int) (cmd : String) :
    ∀ P : List LoopItem, processedList exec_ cmd true P = P := by
  intro P
  induction P with
  | nil => rfl
  | cons it rest ih =>
    by_cases h : itemOk exec_ cmd it = true <;> simp [processedList, h, ih]

theorem processedList_false_eq (exec_ : String → Int) (cmd : String) :
    ∀ P : List LoopItem, processedList exec_ cmd false P
      = P.takeWhile (itemOk exec_ cmd) ++ (P.dropWhile (itemOk exec_ cmd)).take 1 := by
  intro P
  induction P with
  | nil => rfl
  | cons it rest ih =>
    by_cases h : itemOk exec_ cmd it = true
    · simp [processedList, List.takeWhile_cons, List.dropWhile_cons, h, ih]
    · simp [processedList, List.takeWhile_cons, List.dropWhile_cons, h]

theorem processedList_all_false (exec_ : String → Int) (cmd : String) (cont : Bool) :
    ∀ P : List LoopItem, (∃ it ∈ P, itemOk exec_ cmd it = false) →
      (processedList exec_ cmd cont P).all (itemOk exec_ cmd) = false := by
  intro P
  induction P with
  | nil => rintro ⟨it, h, _⟩; simp at h
  | cons a rest ih =>
    rintro ⟨it, hmem, hfail⟩
    by_cases h : itemOk exec_ cmd a = true
    · have hit : it ∈ rest := by
        rcases List.mem_cons.mp hmem with rfl | hm
        · rw [h] at hfail; cases hfail
        · exact hm
      have hpl : processedList exec_ cmd cont (a :: rest)
          = a :: processedList exec_ cmd cont rest := by
        simp [processedList, h]
      rw [hpl, List.all_cons, ih ⟨it, hit, hfail⟩]
      simp
    · by_cases hc : cont = true
      · subst hc; simp [processedList, h]
      · simp [processedList, h, hc]

theorem map_update_mark (exec_ : String → Int) (cmd : String) (s : Store)
    (it : LoopItem) (ids2 : List Nat) (f : LoopItem → LoopItem)
    (hit : it ∈ s.items)
    (hndS : (s.items.map (fun x => x.id)).Nodup)
    (hnotin : it.id ∉ ids2)
    (hout : f it = itemOutcome exec_ cmd it) :
    (s.items.map (fun m => if m.id == it.id then f m else m)).map
        (fun m => if m.id ∈ ids2 then itemOutcome exec_ cmd m else m)
      = s.items.map (fun m => if m.id ∈ it.id :: ids2 then itemOutcome exec_ cmd m else m) := by
  rw [List.map_map]
  apply List.map_congr_left
  intro m hm
  simp only [Function.comp]
  by_cases hmi : m.id = it.id
  · have hmeq : m = it := eq_of_mem_of_id s.items hndS m it hm hit hmi
    subst hmeq
    simp [hout, itemOutcome_id, hnotin, List.mem_cons]
  · by_cases h2 : m.id ∈ ids2
    · simp [hmi, h2, List.mem_cons]
    · simp [hmi, h2, List.mem_cons]

end Loopy

namespace Loopy

theorem runItems_eq (exec_ : String → Int) (cmd : String) (cont : Bool) :
    ∀ (P : List LoopItem) (s : Store) (b : Bool),
      (∀ x ∈ P, x ∈ s.items) →
      ((s.items.map (fun x => x.id)).Nodup) →
      ((P.map (fun x => x.id)).Nodup) →
      runItems exec_ cmd cont s P b =
        (b && (processedList exec_ cmd cont P).all (itemOk exec_ cmd),
         { s with items := s.items.map (fun m =>
             if m.id ∈ (processedList exec_ cmd cont P).map (fun x => x.id)
             then itemOutcome exec_ cmd m else m) }) := by
  intro P
  induction P with
  | nil =>
    intro s b _ _ _
    simp [runItems, processedList]
  | cons it rest ih =>
    intro s b hmem hndS hndP
    have hit : it ∈ s.items := hmem it (List.mem_cons_self _ _)
    have hidrest : it.id ∉ rest.map (fun x => x.id) := by
      rw [List.map_cons] at hndP
      exact (List.nodup_cons.mp hndP).1
    have hndrest : (rest.map (fun x => x.id)).Nodup := by
      rw [List.map_cons] at hndP
      exact (List.nodup_cons.mp hndP).2
    have hidProc : it.id ∉ (processedList exec_ cmd cont rest).map (fun x => x.id) := by
      intro hin
      obtain ⟨y, hy, hyid⟩ := List.mem_map.mp hin
      exact hidrest
        (List.mem_map.mpr ⟨y, processedList_subset exec_ cmd cont rest y hy, hyid⟩)
    by_cases hok : (exec_ (buildCmd cmd it.item) == 0) = true
    · -- the item succeeded
      have hmem' : ∀ x ∈ rest,
          x ∈ (updateItem s it.id
            (fun m => { m with status := ItemStatus.SUCCESS })).items := by
        intro x hx
        refine mem_updateItem s it.id _ x (hmem x (List.mem_cons_of_mem _ hx)) ?_
        intro hxe
        exact hidrest (hxe ▸ List.mem_map.mpr ⟨x, hx, rfl⟩)
      have hnds' : ((updateItem s it.id
          (fun m => { m with status := ItemStatus.SUCCESS })).items.map
            (fun x => x.id)).Nodup := by
        rw [updateItem_ids s it.id
          (fun m => { m with status := ItemStatus.SUCCESS }) (fun m => rfl)]
        exact hndS
      have hihr := ih (updateItem s it.id
        (fun m => { m with status := ItemStatus.SUCCESS })) b hmem' hnds' hndrest
      have hrun : runItems exec_ cmd cont s (it :: rest) b
          = runItems exec_ cmd cont
              (updateItem s it.id (fun m => { m with status := ItemStatus.SUCCESS }))
              rest b := by
        simp [runItems, hok]
      have hpl : processedList exec_ cmd cont (it :: rest)
          = it :: processedList exec_ cmd cont rest := by
        simp [processedList, itemOk, hok]
      have hmark := map_update_mark exec_ cmd s it
        ((processedList exec_ cmd cont rest).map (fun x => x.id))
        (fun m => { m with status := ItemStatus.SUCCESS })
        hit hndS hidProc (by simp [itemOutcome, hok])
      rw [hrun, hihr, hpl]
      simp only [List.all_cons, List.map_cons, Prod.mk.injEq, updateItem]
      constructor
      · simp [itemOk, hok]
      · rw [hmark]
    · rw [Bool.not_eq_true] at hok
      by_cases hc : cont = true
      · -- the item failed, continue_on_failure is set
        subst hc
        have hmem' : ∀ x ∈ rest,
            x ∈ (updateItem s it.id (fun m =>
              { m with
                status := ItemStatus.FAILED,
                attempts := m.attempts + 1,
                last_error := some ("Command failed with exit code "
                  ++ toString (exec_ (buildCmd cmd it.item))) })).items := by
          intro x hx
          refine mem_updateItem s it.id _ x (hmem x (List.mem_cons_of_mem _ hx)) ?_
          intro hxe
          exact hidrest (hxe ▸ List.mem_map.mpr ⟨x, hx, rfl⟩)
        have hnds' : ((updateItem s it.id (fun m =>
            { m with
              status := ItemStatus.FAILED,
              attempts := m.attempts + 1,
              last_error := some ("Command failed with exit code "
                ++ toString (exec_ (buildCmd cmd it.item))) })).items.map
              (fun x => x.id)).Nodup := by
          rw [updateItem_ids s it.id
            (fun m =>
              { m with
                status := ItemStatus.FAILED,
                attempts := m.attempts + 1,
                last_error := some ("Command failed with exit code "
                  ++ toString (exec_ (buildCmd cmd it.item))) })
            (fun m => rfl)]
          exact hndS
        have hihr := ih (updateItem s it.id (fun m =>
          { m with
            status := ItemStatus.FAILED,
            attempts := m.attempts + 1,
            last_error := some ("Command failed with exit code "
              ++ toString (exec_ (buildCmd cmd it.item))) })) false hmem' hnds' hndrest
        have hrun : runItems exec_ cmd true s (it :: rest) b
            = runItems exec_ cmd true
                (updateItem s it.id (fun m =>
                  { m with
                    status := ItemStatus.FAILED,
                    attempts := m.attempts + 1,
                    last_error := some ("Command failed with exit code "
                      ++ toString (exec_ (buildCmd cmd it.item))) }))
                rest false := by
          simp [runItems, hok]
        have hpl : processedList exec_ cmd true (it :: rest)
            = it :: processedList exec_ cmd true rest := by
          simp [processedList, itemOk, hok]
        have hmark := map_update_mark exec_ cmd s it
          ((processedList exec_ cmd true rest).map (fun x => x.id))
          (fun m =>
            { m with
              status := ItemStatus.FAILED,
              attempts := m.attempts + 1,
              last_error := some ("Command failed with exit code "
                ++ toString (exec_ (buildCmd cmd it.item))) })
          hit hndS hidProc (by simp [itemOutcome, hok])
        rw [hrun, hihr, hpl]
        simp only [List.all_cons, List.map_cons, Prod.mk.injEq, updateItem]
        constructor
        · simp [itemOk, hok]
        · rw [hmark]
      · -- the item failed and processing stops
        have hcf : cont = false := by revert hc; cases cont <;> simp
        subst hcf
        have hrun : runItems exec_ cmd false s (it :: rest) b
            = (false, updateItem s it.id (fun m =>
                { m with
                  status := ItemStatus.FAILED,
                  attempts := m.attempts + 1,
                  last_error := some ("Command failed with exit code "
                    ++ toString (exec_ (buildCmd cmd it.item))) })) := by
          simp [runItems, hok]
        have hpl : processedList exec_ cmd false (it :: rest) = [it] := by
          simp [processedList, itemOk, hok]
        have hmark := map_update_mark exec_ cmd s it []
          (fun m =>
            { m with
              status := ItemStatus.FAILED,
              attempts := m.attempts + 1,
              last_error := some ("Command failed with exit code "
                ++ toString (exec_ (buildCmd cmd it.item))) })
          hit hndS (by simp) (by simp [itemOutcome, hok])
        have hid : (s.items.map (fun m => if m.id == it.id then
            (fun m => { m with
              status := ItemStatus.FAILED,
              attempts := m.attempts + 1,
              last_error := some ("Command failed with exit code "
                ++ toString (exec_ (buildCmd cmd it.item))) }) m else m)).map
              (fun m => if m.id ∈ ([] : List Nat) then itemOutcome exec_ cmd m else m)
            = s.items.map (fun m => if m.id == it.id then
              (fun m => { m with
                status := ItemStatus.FAILED,
                attempts := m.attempts + 1,
                last_error := some ("Command failed with exit code "
                  ++ toString (exec_ (buildCmd cmd it.item))) }) m else m) := by
          simp
        rw [hrun, hpl]
        simp only [List.all_cons, List.all_nil, List.map_cons, List.map_nil,
          Prod.mk.injEq, updateItem]
        constructor
        · simp [itemOk, hok]
        · rw [← hmark, hid]

end Loopy

namespace Loopy

theorem pendingOf_sublist (s : Store) (lid : String) :
    (pendingOf s lid).Sublist s.items := by
  unfold pendingOf itemsOf
  exact (List.filter_sublist _).trans (List.filter_sublist _)

theorem mem_pendingOf (s : Store) (lid : String) (x : LoopItem)
    (hx : x ∈ pendingOf s lid) :
    x ∈ s.items ∧ x.loop_id = lid ∧ x.status = ItemStatus.PENDING := by
  unfold pendingOf itemsOf at hx
  simp only [List.mem_filter, beq_iff_eq] at hx
  exact ⟨hx.1.1, hx.1.2, hx.2⟩

theorem pendingOf_ids_nodup (s : Store) (lid : String)
    (hndS : (s.items.map (fun x => x.id)).Nodup) :
    ((pendingOf s lid).map (fun x => x.id)).Nodup :=
  List.Nodup.sublist (List.Sublist.map (fun x => x.id) (pendingOf_sublist s lid)) hndS

theorem run_eq (exec_ : String → Int) (s : Store) (lid : String) (cont : Bool)
    (lm : LoopModel) (hlm : getLoop s lid = some lm)
    (hndS : (s.items.map (fun x => x.id)).Nodup) :
    Loop.run exec_ s lid cont =
      .ok ((processedList exec_ lm.command cont (pendingOf s lid)).all (itemOk exec_ lm.command),
        { s with items := s.items.map (fun m =>
            if m.id ∈ (processedList exec_ lm.command cont (pendingOf s lid)).map (fun x => x.id)
            then itemOutcome exec_ lm.command m else m) }) := by
  have hmem : ∀ x ∈ pendingOf s lid, x ∈ s.items :=
    fun x hx => (pendingOf_sublist s lid).subset hx
  have hndP := pendingOf_ids_nodup s lid hndS
  by_cases hemp : (pendingOf s lid).isEmpty = true
  · have hnil : pendingOf s lid = [] := by
      cases h : pendingOf s lid with
      | nil => rfl
      | cons a t => rw [h] at hemp; simp [List.isEmpty] at hemp
    simp [Loop.run, hlm, hnil, processedList]
  · have hrun : Loop.run exec_ s lid cont
        = .ok (runItems exec_ lm.command cont s (pendingOf s lid) true) := by
      simp [Loop.run, hlm, hemp]
    rw [hrun, runItems_eq exec_ lm.command cont (pendingOf s lid) s true hmem hndS hndP]
    simp

theorem find?_map_pres_id (l : List LoopItem) (g : LoopItem → LoopItem)
    (hg : ∀ m, (g m).id = m.id) (x : LoopItem) (hx : x ∈ l)
    (hnd : (l.map (fun it => it.id)).Nodup) :
    (l.map g).find? (fun m => m.id == x.id) = some (g x) := by
  induction l with
  | nil => simp at hx
  | cons a t ih =>
    rw [List.map_cons] at hnd ⊢
    by_cases ha : a.id = x.id
    · have hax : a = x := by
        rcases List.mem_cons.mp hx with rfl | hxt
        · rfl
        · exact absurd (ha ▸ List.mem_map.mpr ⟨x, hxt, rfl⟩) (List.nodup_cons.mp hnd).1
      subst hax
      exact List.find?_cons_of_pos _ (by simp [hg])
    · have hx' : x ∈ t := by
        rcases List.mem_cons.mp hx with rfl | hxt
        · exact absurd rfl ha
        · exact hxt
      rw [List.find?_cons_of_neg _ (by simp [hg, ha])]
      exact ih hx' (List.nodup_cons.mp hnd).2

theorem mark_preserves_id (exec_ : String → Int) (cmd : String) (ids2 : List Nat) :
    ∀ m : LoopItem,
      ((fun m => if m.id ∈ ids2 then itemOutcome exec_ cmd m else m) m).id = m.id := by
  intro m
  by_cases h : m.id ∈ ids2 <;> simp [h, itemOutcome_id]

theorem findItem_mark (exec_ : String → Int) (cmd : String) (s : Store) (ids2 : List Nat)
    (x : LoopItem) (hx : x ∈ s.items)
    (hndS : (s.items.map (fun x => x.id)).Nodup) :
    findItem { s with items := s.items.map (fun m =>
        if m.id ∈ ids2 then itemOutcome exec_ cmd m else m) } x.id
      = some (if x.id ∈ ids2 then itemOutcome exec_ cmd x else x) := by
  unfold findItem
  exact find?_map_pres_id s.items _ (mark_preserves_id exec_ cmd ids2) x hx hndS

/-- C1: for every loop that exists and every item processed by
`run(loop_id, continue_on_failure)`: exit code 0 turns the item's
status into SUCCESS with `attempts` and `last_error` unchanged; a
non-zero exit code turns it into FAILED, increments `attempts` by
exactly 1 and sets `last_error` to a message naming the exit code; and
`run` returns true if and only if no item processed during this pass
ended FAILED. -/
theorem C1_run_outcomes (exec_ : String → Int) (s : Store) (lid : String) (cont : Bool)
    (lm : LoopModel) (hlm : getLoop s lid = some lm)
    (hndS : (s.items.map (fun x => x.id)).Nodup) :
    ∃ res s',
      Loop.run exec_ s lid cont = .ok (res, s') ∧
      (∀ it ∈ processedList exec_ lm.command cont (pendingOf s lid),
        (exec_ (buildCmd lm.command it.item) = 0 →
          findItem s' it.id = some { it with status := ItemStatus.SUCCESS }) ∧
        (exec_ (buildCmd lm.command it.item) ≠ 0 →
          findItem s' it.id = some { it with
            status := ItemStatus.FAILED,
            attempts := it.attempts + 1,
            last_error := some ("Command failed with exit code "
              ++ toString (exec_ (buildCmd lm.command it.item))) })) ∧
      (res = true ↔ ∀ it ∈ processedList exec_ lm.command cont (pendingOf s lid),
        exec_ (buildCmd lm.command it.item) = 0) := by
  refine ⟨_, _, run_eq exec_ s lid cont lm hlm hndS, ?_, ?_⟩
  · intro it hit
    have hmem : it ∈ s.items :=
      (pendingOf_sublist s lid).subset
        (processedList_subset exec_ lm.command cont (pendingOf s lid) it hit)
    have hin : it.id ∈ (processedList exec_ lm.command cont (pendingOf s lid)).map
        (fun x => x.id) := List.mem_map.mpr ⟨it, hit, rfl⟩
    have hfind := findItem_mark exec_ lm.command s
      ((processedList exec_ lm.command cont (pendingOf s lid)).map (fun x => x.id))
      it hmem hndS
    rw [if_pos hin] at hfind
    constructor
    · intro h0
      rw [hfind]
      simp [itemOutcome, h0]
    · intro hne
      rw [hfind]
      have hb : (exec_ (buildCmd lm.command it.item) == 0) = false := by
        simpa using hne
      simp [itemOutcome, hb]
  · simp [List.all_eq_true, itemOk]

end Loopy

namespace Loopy

/-- C2: `run` selects exactly the items that are PENDING at the start of
the call, in insertion order (`pendingOf` is the in-order filter of the
stored items, and with `continue_on_failure` it processes all of them);
an item that was already SUCCESS or FAILED before the call, or that
belongs to another loop, is never modified; and every status change is
PENDING → SUCCESS or PENDING → FAILED, never backward. -/
theorem C2_resumability (exec_ : String → Int) (s : Store) (lid : String) (cont : Bool)
    (lm : LoopModel) (hlm : getLoop s lid = some lm)
    (hndS : (s.items.map (fun x => x.id)).Nodup) :
    ∃ res s',
      Loop.run exec_ s lid cont = .ok (res, s') ∧
      (∀ it ∈ s.items, it.status ≠ ItemStatus.PENDING → findItem s' it.id = some it) ∧
      (∀ it ∈ s.items, it.loop_id ≠ lid → findItem s' it.id = some it) ∧
      (∀ it ∈ s.items, findItem s' it.id = some it ∨
        (it.status = ItemStatus.PENDING ∧ it.loop_id = lid ∧
          findItem s' it.id = some (itemOutcome exec_ lm.command it) ∧
          (itemOutcome exec_ lm.command it).status ≠ ItemStatus.PENDING)) ∧
      (cont = true →
        processedList exec_ lm.command cont (pendingOf s lid) = pendingOf s lid ∧
        ∀ it ∈ pendingOf s lid,
          findItem s' it.id = some (itemOutcome exec_ lm.command it)) := by
  refine ⟨_, _, run_eq exec_ s lid cont lm hlm hndS, ?_, ?_, ?_, ?_⟩
  all_goals
    try intro it hit
  · -- items already terminal are untouched
    intro hterm
    have hfind := findItem_mark exec_ lm.command s
      ((processedList exec_ lm.command cont (pendingOf s lid)).map (fun x => x.id))
      it hit hndS
    rw [if_neg ?_] at hfind
    · exact hfind
    · intro hin
      obtain ⟨y, hy, hyid⟩ := List.mem_map.mp hin
      have hyP := processedList_subset exec_ lm.command cont (pendingOf s lid) y hy
      have := mem_pendingOf s lid y hyP
      have hyit : y = it := eq_of_mem_of_id s.items hndS y it this.1 hit hyid
      exact hterm (hyit ▸ this.2.2)
  · -- items of other loops are untouched
    intro hother
    have hfind := findItem_mark exec_ lm.command s
      ((processedList exec_ lm.command cont (pendingOf s lid)).map (fun x => x.id))
      it hit hndS
    rw [if_neg ?_] at hfind
    · exact hfind
    · intro hin
      obtain ⟨y, hy, hyid⟩ := List.mem_map.mp hin
      have hyP := processedList_subset exec_ lm.command cont (pendingOf s lid) y hy
      have := mem_pendingOf s lid y hyP
      have hyit : y = it := eq_of_mem_of_id s.items hndS y it this.1 hit hyid
      exact hother (hyit ▸ this.2.1)
  · -- every change is PENDING → SUCCESS or PENDING → FAILED
    have hfind := findItem_mark exec_ lm.command s
      ((processedList exec_ lm.command cont (pendingOf s lid)).map (fun x => x.id))
      it hit hndS
    by_cases hin : it.id ∈ (processedList exec_ lm.command cont (pendingOf s lid)).map
        (fun x => x.id)
    · right
      obtain ⟨y, hy, hyid⟩ := List.mem_map.mp hin
      have hyP := processedList_subset exec_ lm.command cont (pendingOf s lid) y hy
      have hmemP := mem_pendingOf s lid y hyP
      have hyit : y = it := eq_of_mem_of_id s.items hndS y it hmemP.1 hit hyid
      subst hyit
      refine ⟨hmemP.2.2, hmemP.2.1, by rw [if_pos hin] at hfind; exact hfind, ?_⟩
      rcases itemOutcome_status exec_ lm.command y with h | h <;> simp [h]
    · left
      rw [if_neg hin] at hfind
      exact hfind
  · -- with continue_on_failure every pending item is processed
    intro hc
    subst hc
    refine ⟨processedList_cont_true exec_ lm.command (pendingOf s lid), ?_⟩
    intro it hit
    have hmem : it ∈ s.items := (pendingOf_sublist s lid).subset hit
    have hfind := findItem_mark exec_ lm.command s
      ((processedList exec_ lm.command true (pendingOf s lid)).map (fun x => x.id))
      it hmem hndS
    rw [if_pos ?_] at hfind
    · exact hfind
    · rw [processedList_cont_true exec_ lm.command (pendingOf s lid)]
      exact List.mem_map.mpr ⟨it, hit, rfl⟩

/-- C9: on an existing loop with no PENDING item, `run` returns
success and performs no store writes: the store is returned unchanged. -/
theorem C9_no_pending_noop (exec_ : String → Int) (s : Store) (lid : String) (cont : Bool)
    (lm : LoopModel) (hlm : getLoop s lid = some lm)
    (hnp : pendingOf s lid = []) :
    Loop.run exec_ s lid cont = .ok (true, s) := by
  simp [Loop.run, hlm, hnp]

end Loopy

namespace Loopy

/-- C3: on a run in which some pending item fails, `run` returns false;
with `continue_on_failure` false, processing stops right after the
first failing item and every later pending item is left untouched in
PENDING; with `continue_on_failure` true, every pending item is
processed regardless of earlier failures. -/
theorem C3_stop_or_continue (exec_ : String → Int) (s : Store) (lid : String)
    (cont : Bool) (lm : LoopModel) (hlm : getLoop s lid = some lm)
    (hndS : (s.items.map (fun x => x.id)).Nodup)
    (hfail : ∃ it ∈ pendingOf s lid, itemOk exec_ lm.command it = false) :
    ∃ s',
      Loop.run exec_ s lid cont = .ok (false, s') ∧
      (cont = false →
        ∀ it ∈ ((pendingOf s lid).dropWhile (itemOk exec_ lm.command)).drop 1,
          findItem s' it.id = some it ∧ it.status = ItemStatus.PENDING) ∧
      (cont = true →
        ∀ it ∈ pendingOf s lid,
          findItem s' it.id = some (itemOutcome exec_ lm.command it)) := by
  have hall := processedList_all_false exec_ lm.command cont (pendingOf s lid) hfail
  refine ⟨_, by rw [run_eq exec_ s lid cont lm hlm hndS, hall], ?_, ?_⟩
  · intro hc it hit
    subst hc
    have hitDW : it ∈ (pendingOf s lid).dropWhile (itemOk exec_ lm.command) :=
      (List.drop_sublist 1 _).subset hit
    have hitP : it ∈ pendingOf s lid := (List.dropWhile_sublist _).subset hitDW
    have hmemP := mem_pendingOf s lid it hitP
    have hPAB : pendingOf s lid
        = ((pendingOf s lid).takeWhile (itemOk exec_ lm.command)
            ++ ((pendingOf s lid).dropWhile (itemOk exec_ lm.command)).take 1)
          ++ ((pendingOf s lid).dropWhile (itemOk exec_ lm.command)).drop 1 := by
      conv_lhs => rw [← List.takeWhile_append_dropWhile (p := itemOk exec_ lm.command)
        (l := pendingOf s lid)]
      rw [List.append_assoc, List.take_append_drop]
    have hndP := pendingOf_ids_nodup s lid hndS
    have hnd' := hndP
    rw [hPAB, List.map_append] at hnd'
    have hdisj := (List.nodup_append.mp hnd').2.2
    have hnotin : it.id ∉ (processedList exec_ lm.command false (pendingOf s lid)).map
        (fun x => x.id) := by
      intro hin
      rw [processedList_false_eq] at hin
      exact hdisj hin (List.mem_map.mpr ⟨it, hit, rfl⟩)
    have hfind := findItem_mark exec_ lm.command s
      ((processedList exec_ lm.command false (pendingOf s lid)).map (fun x => x.id))
      it hmemP.1 hndS
    rw [if_neg hnotin] at hfind
    exact ⟨hfind, hmemP.2.2⟩
  · intro hc it hit
    subst hc
    have hmem : it ∈ s.items := (pendingOf_sublist s lid).subset hit
    have hfind := findItem_mark exec_ lm.command s
      ((processedList exec_ lm.command true (pendingOf s lid)).map (fun x => x.id))
      it hmem hndS
    rw [if_pos ?_] at hfind
    · exact hfind
    · rw [processedList_cont_true exec_ lm.command (pendingOf s lid)]
      exact List.mem_map.mpr ⟨it, hit, rfl⟩

end Loopy

namespace Loopy

/-! ### Helper lemmas about the lifecycle operations -/

theorem createItemsFold_spec (lid : String) :
    ∀ (texts : List String) (s : Store),
      createItemsFold lid s texts =
        { s with
          items := s.items ++ stampNew lid s.nextItemId texts,
          nextItemId := s.nextItemId + texts.length } := by
  intro texts
  induction texts with
  | nil => intro s; simp [createItemsFold, stampNew]
  | cons t rest ih =>
    intro s
    have h1 : createItemsFold lid s (t :: rest)
        = createItemsFold lid (createItem s lid t) rest := rfl
    rw [h1, ih]
    simp [createItem, stampNew]
    omega

theorem copyFold_spec (tgt : String) :
    ∀ (L : List LoopItem) (s : Store),
      L.foldl (copyStep tgt) s =
        { s with
          items := s.items ++ stampCopies tgt s.nextItemId L,
          nextItemId := s.nextItemId + L.length } := by
  intro L
  induction L with
  | nil => intro s; simp [stampCopies]
  | cons it rest ih =>
    intro s
    have h1 : (it :: rest).foldl (copyStep tgt) s
        = rest.foldl (copyStep tgt) (copyStep tgt s it) := rfl
    rw [h1, ih]
    simp [copyStep, stampCopies]
    omega

theorem stampNew_filter_self (lid : String) : ∀ (n : Nat) (texts : List String),
    (stampNew lid n texts).filter (fun it => it.loop_id == lid) = stampNew lid n texts := by
  intro n texts
  induction texts generalizing n with
  | nil => rfl
  | cons t rest ih => simp [stampNew, List.filter_cons, ih]

theorem stampNew_filter_ne (lid other : String) (hne : other ≠ lid) :
    ∀ (n : Nat) (texts : List String),
      (stampNew lid n texts).filter (fun it => it.loop_id == other) = [] := by
  intro n texts
  induction texts generalizing n with
  | nil => rfl
  | cons t rest ih => simp [stampNew, List.filter_cons, Ne.symm hne, ih]

theorem stampNew_proj (lid : String) : ∀ (n : Nat) (texts : List String),
    (stampNew lid n texts).map (fun it => (it.item, it.status, it.attempts, it.last_error))
      = texts.map (fun t => (t, ItemStatus.PENDING, 0, (none : Option String))) := by
  intro n texts
  induction texts generalizing n with
  | nil => rfl
  | cons t rest ih => simp [stampNew, ih]

theorem stampNew_id_ge (lid : String) : ∀ (n : Nat) (texts : List String)
    (it : LoopItem), it ∈ stampNew lid n texts → n ≤ it.id := by
  intro n texts
  induction texts generalizing n with
  | nil => intro it hit; simp [stampNew] at hit
  | cons t rest ih =>
    intro it hit
    rcases List.mem_cons.mp hit with rfl | hit
    · exact Nat.le_refl _
    · exact Nat.le_of_succ_le (ih (n + 1) it hit)

theorem stampCopies_filter_self (tgt : String) : ∀ (n : Nat) (L : List LoopItem),
    (stampCopies tgt n L).filter (fun it => it.loop_id == tgt) = stampCopies tgt n L := by
  intro n L
  induction L generalizing n with
  | nil => rfl
  | cons it rest ih => simp [stampCopies, List.filter_cons, ih]

theorem stampCopies_filter_ne (tgt other : String) (hne : other ≠ tgt) :
    ∀ (n : Nat) (L : List LoopItem),
      (stampCopies tgt n L).filter (fun it => it.loop_id == other) = [] := by
  intro n L
  induction L generalizing n with
  | nil => rfl
  | cons it rest ih => simp [stampCopies, List.filter_cons, Ne.symm hne, ih]

theorem stampCopies_proj (tgt : String) : ∀ (n : Nat) (L : List LoopItem),
    (stampCopies tgt n L).map (fun it => (it.item, it.status, it.attempts, it.last_error))
      = L.map (fun it => (it.item, it.status, it.attempts, it.last_error)) := by
  intro n L
  induction L generalizing n with
  | nil => rfl
  | cons it rest ih => simp [stampCopies, ih]

theorem getLoop_deleteLoopCascade (s : Store) (lid : String) :
    getLoop (deleteLoopCascade s lid) lid = none := by
  simp only [getLoop, deleteLoopCascade]
  apply List.find?_eq_none.mpr
  intro l hl
  rw [List.mem_filter] at hl
  simpa using hl.2

theorem find?_append_of_none {α : Type} (p : α → Bool) (l1 l2 : List α)
    (h : l1.find? p = none) : (l1 ++ l2).find? p = l2.find? p := by
  induction l1 with
  | nil => simp
  | cons a t ih =>
    by_cases hpa : p a = true
    · rw [List.find?_cons_of_pos _ hpa] at h; cases h
    · rw [List.find?_cons_of_neg _ (by simp [hpa])] at h
      rw [List.cons_append, List.find?_cons_of_neg _ (by simp [hpa])]
      exact ih h

theorem filter_src_map_reset (src tgt : String) (hne : src ≠ tgt) (l : List LoopItem) :
    (l.map (fun it => if it.loop_id == tgt then
        { it with status := ItemStatus.PENDING, attempts := 0, last_error := none }
      else it)).filter (fun it => it.loop_id == src)
      = l.filter (fun it => it.loop_id == src) := by
  induction l with
  | nil => rfl
  | cons a t ih =>
    rw [List.map_cons]
    by_cases ha : a.loop_id = tgt
    · have hfa : (if a.loop_id == tgt then
          ({ a with status := ItemStatus.PENDING, attempts := 0, last_error := none } : LoopItem)
        else a)
          = { a with status := ItemStatus.PENDING, attempts := 0, last_error := none } := by
        simp [ha]
      rw [hfa, List.filter_cons, List.filter_cons]
      rw [if_neg (by simp [ha, Ne.symm hne]), if_neg (by simp [ha, Ne.symm hne])]
      exact ih
    · have hfa : (if a.loop_id == tgt then
          ({ a with status := ItemStatus.PENDING, attempts := 0, last_error := none } : LoopItem)
        else a) = a := by simp [ha]
      rw [hfa, List.filter_cons, List.filter_cons]
      by_cases hs : a.loop_id = src
      · rw [if_pos (by simp [hs]), if_pos (by simp [hs]), ih]
      · rw [if_neg (by simp [hs]), if_neg (by simp [hs])]
        exact ih

theorem status_counts (l : List LoopItem) :
    (l.filter (fun it => it.status == ItemStatus.PENDING)).length
      + (l.filter (fun it => it.status == ItemStatus.FAILED)).length
      + (l.filter (fun it => it.status == ItemStatus.SUCCESS)).length
      = l.length := by
  induction l with
  | nil => rfl
  | cons a t ih =>
    cases ha : a.status <;> simp [List.filter_cons, ha] <;> omega

end Loopy

namespace Loopy

/-- C5 counterexample: `add_items` on an absent loop id does not fail
with NotFound — the source performs no existence check (loop.py:200-205)
and the call succeeds, inserting the rows. -/
theorem C5_counterexample :
    getLoop sEmpty "missing" = none ∧
    Loop.add_items sEmpty "missing" ["x"]
      = .ok ⟨[], [⟨0, "missing", "x", ItemStatus.PENDING, 0, none⟩], 1⟩ := by
  constructor
  · rfl
  · rfl

/-- C5 amended: `run`, `reset`, `delete`, `update_command`, `copy_to`
and `replace_items` fail with NotFound on an absent loop id;
`list_items` returns the empty sequence and `get_progress` returns all
zeros; `add_items` performs no existence check and silently succeeds. -/
theorem C5_amended (exec_ : String → Int) (cont : Bool) (s : Store)
    (lid tgt cmd : String) (texts : List String)
    (h : getLoop s lid = none) :
    Loop.run exec_ s lid cont = .error (.NotFound lid) ∧
    Loop.reset s lid = .error (.NotFound lid) ∧
    Loop.delete s lid = .error (.NotFound lid) ∧
    Loop.update_command s lid cmd = .error (.NotFound lid) ∧
    Loop.copy_to s lid tgt = .error (.NotFound lid) ∧
    Loop.replace_items s lid texts = .error (.NotFound lid) ∧
    Loop.list_items s lid = [] ∧
    Loop.get_progress s lid = (0, 0, 0, 0) ∧
    (∃ s', Loop.add_items s lid texts = .ok s') := by
  refine ⟨?_, ?_, ?_, ?_, ?_, ?_, ?_, ?_, ⟨createItemsFold lid s texts, rfl⟩⟩ <;>
    simp [Loop.run, Loop.reset, Loop.delete, Loop.update_command, Loop.copy_to,
      Loop.replace_items, Loop.list_items, Loop.get_progress, h]

/-- C6: deleting an existing loop removes the loop record and every one
of its items; afterwards a get-by-id reports absent, `list_items`
returns empty, and no stored item references the deleted loop (no
orphans). -/
theorem C6_delete_cascades (s : Store) (lid : String) (lm : LoopModel)
    (hlm : getLoop s lid = some lm) :
    ∃ s', Loop.delete s lid = .ok s' ∧
      getLoop s' lid = none ∧
      Loop.list_items s' lid = [] ∧
      itemsOf s' lid = [] ∧
      (∀ it ∈ s'.items, it.loop_id ≠ lid) := by
  refine ⟨deleteLoopCascade s lid, by simp [Loop.delete, hlm], getLoop_deleteLoopCascade s lid,
    ?_, ?_, ?_⟩
  · simp [Loop.list_items, getLoop_deleteLoopCascade s lid]
  · simp only [itemsOf, deleteLoopCascade]
    apply List.filter_eq_nil_iff.mpr
    intro it hit
    rw [List.mem_filter] at hit
    simpa using hit.2
  · intro it hit
    simp only [deleteLoopCascade] at hit
    rw [List.mem_filter] at hit
    simpa using hit.2

/-- C10: the progress tuple (pending, failed, success, total) always
satisfies pending + failed + success = total, and for an absent loop it
is (0, 0, 0, 0). -/
theorem C10_progress_sum (s : Store) (lid : String) :
    (Loop.get_progress s lid).1 + (Loop.get_progress s lid).2.1
        + (Loop.get_progress s lid).2.2.1 = (Loop.get_progress s lid).2.2.2 ∧
    (getLoop s lid = none → Loop.get_progress s lid = (0, 0, 0, 0)) := by
  constructor
  · unfold Loop.get_progress
    cases h : getLoop s lid with
    | none => simp
    | some lm => simpa using status_counts (itemsOf s lid)
  · intro h
    simp [Loop.get_progress, h]

end Loopy

namespace Loopy

/-- C7: for an existing source loop, `copy_to` fails with AlreadyExists
when the target id is present and changes nothing; on success the
target's items match the source's items in text, status, attempts and
last_error exactly (a snapshot), the source's items are unchanged, and
subsequently mutating the target's items (a reset of the target) does
not change the source's items. -/
theorem C7_copy_snapshot (s : Store) (src tgt : String) (lm : LoopModel)
    (hsrc : getLoop s src = some lm) (hwf : StoreWF s) :
    (∀ lt, getLoop s tgt = some lt → Loop.copy_to s src tgt = .error (.AlreadyExists tgt)) ∧
    (getLoop s tgt = none →
      ∃ s', Loop.copy_to s src tgt = .ok s' ∧
        (itemsOf s' tgt).map (fun it => (it.item, it.status, it.attempts, it.last_error))
          = (itemsOf s src).map (fun it => (it.item, it.status, it.attempts, it.last_error)) ∧
        itemsOf s' src = itemsOf s src ∧
        (∀ s'', Loop.reset s' tgt = .ok s'' → itemsOf s'' src = itemsOf s src)) := by
  constructor
  · intro lt hlt
    simp [Loop.copy_to, hsrc, hlt]
  · intro htgt
    have htgt' : s.loops.find? (fun l => l.id == tgt) = none := htgt
    have hne : src ≠ tgt := by
      intro h
      rw [h, htgt] at hsrc
      cases hsrc
    have hitgt : (s.items.filter (fun it => it.loop_id == tgt)) = [] := by
      apply List.filter_eq_nil_iff.mpr
      intro it hit
      obtain ⟨l, hl, hlid⟩ := hwf.2.2.2 it hit
      intro hbeq
      have hlb : (l.id == tgt) = true := by rw [hlid]; exact hbeq
      exact absurd hlb (by simpa using List.find?_eq_none.mp htgt' l hl)
    have hcopy : Loop.copy_to s src tgt
        = .ok ((itemsOf { s with loops := s.loops ++ [⟨tgt, lm.command, "active"⟩] } src).foldl
            (copyStep tgt) { s with loops := s.loops ++ [⟨tgt, lm.command, "active"⟩] }) := by
      simp [Loop.copy_to, hsrc, htgt]
    rw [copyFold_spec] at hcopy
    have hcopy' : Loop.copy_to s src tgt
        = .ok ⟨s.loops ++ [⟨tgt, lm.command, "active"⟩],
               s.items ++ stampCopies tgt s.nextItemId (itemsOf s src),
               s.nextItemId + (itemsOf s src).length⟩ := hcopy
    refine ⟨_, hcopy', ?_, ?_, ?_⟩
    · show ((s.items ++ stampCopies tgt s.nextItemId (itemsOf s src)).filter
          (fun it => it.loop_id == tgt)).map _ = _
      rw [List.filter_append, hitgt, stampCopies_filter_self, List.nil_append,
        stampCopies_proj]
    · show (s.items ++ stampCopies tgt s.nextItemId (itemsOf s src)).filter
          (fun it => it.loop_id == src) = _
      rw [List.filter_append, stampCopies_filter_ne tgt src hne, List.append_nil]
      rfl
    · intro s'' hrs
      have hg : getLoop (⟨s.loops ++ [⟨tgt, lm.command, "active"⟩],
          s.items ++ stampCopies tgt s.nextItemId (itemsOf s src),
          s.nextItemId + (itemsOf s src).length⟩ : Store) tgt
          = some ⟨tgt, lm.command, "active"⟩ := by
        show (s.loops ++ [(⟨tgt, lm.command, "active"⟩ : LoopModel)]).find?
            (fun l => l.id == tgt) = some (⟨tgt, lm.command, "active"⟩ : LoopModel)
        rw [find?_append_of_none _ _ _ htgt']
        simp
      rw [Loop.reset, hg] at hrs
      simp only [Except.ok.injEq] at hrs
      rw [← hrs]
      show ((s.items ++ stampCopies tgt s.nextItemId (itemsOf s src)).map
          (fun it => if it.loop_id == tgt then
            { it with status := ItemStatus.PENDING, attempts := 0, last_error := none }
          else it)).filter (fun it => it.loop_id == src) = _
      rw [filter_src_map_reset src tgt hne, List.filter_append,
        stampCopies_filter_ne tgt src hne, List.append_nil]
      rfl

/-- C8: after `replace_items` on an existing loop, the loop's items are
exactly the replacement sequence in order, all PENDING with attempts 0
and no last_error, every prior item of the loop is gone from the store,
and no new item reuses the id of any item that was in the store
before. -/
theorem C8_replace_items (s : Store) (lid : String) (lm : LoopModel) (texts : List String)
    (hlm : getLoop s lid = some lm) (hwf : StoreWF s) :
    ∃ s', Loop.replace_items s lid texts = .ok s' ∧
      itemsOf s' lid = stampNew lid s.nextItemId texts ∧
      (itemsOf s' lid).map (fun it => (it.item, it.status, it.attempts, it.last_error))
        = texts.map (fun t => (t, ItemStatus.PENDING, 0, (none : Option String))) ∧
      (∀ it ∈ s.items, it.loop_id = lid → it ∉ s'.items) ∧
      (∀ nw ∈ itemsOf s' lid, ∀ old ∈ s.items, nw.id ≠ old.id) := by
  have hrepl : Loop.replace_items s lid texts
      = .ok (createItemsFold lid
          { s with items := s.items.filter (fun it => !(it.loop_id == lid)) } texts) := by
    simp [Loop.replace_items, hlm]
  rw [createItemsFold_spec] at hrepl
  have hrepl' : Loop.replace_items s lid texts
      = .ok ⟨s.loops,
             s.items.filter (fun it => !(it.loop_id == lid))
               ++ stampNew lid s.nextItemId texts,
             s.nextItemId + texts.length⟩ := hrepl
  have hfilter : (s.items.filter (fun it => !(it.loop_id == lid))).filter
      (fun it => it.loop_id == lid) = [] := by
    apply List.filter_eq_nil_iff.mpr
    intro it hit
    rw [List.mem_filter] at hit
    simpa using hit.2
  have hio : itemsOf (⟨s.loops,
      s.items.filter (fun it => !(it.loop_id == lid)) ++ stampNew lid s.nextItemId texts,
      s.nextItemId + texts.length⟩ : Store) lid = stampNew lid s.nextItemId texts := by
    show (s.items.filter (fun it => !(it.loop_id == lid))
        ++ stampNew lid s.nextItemId texts).filter (fun it => it.loop_id == lid) = _
    rw [List.filter_append, hfilter, stampNew_filter_self, List.nil_append]
  refine ⟨_, hrepl', hio, ?_, ?_, ?_⟩
  · rw [hio, stampNew_proj]
  · intro it hit hlid hmem'
    rcases List.mem_append.mp hmem' with hm | hm
    · rw [List.mem_filter] at hm
      have := hm.2
      simp [hlid] at this
    · have h1 := stampNew_id_ge lid s.nextItemId texts it hm
      have h2 := hwf.1 it hit
      omega
  · intro nw hnw old hold
    rw [hio] at hnw
    have h1 := stampNew_id_ge lid s.nextItemId texts nw hnw
    have h2 := hwf.1 old hold
    omega

end Loopy

namespace Loopy

/-- Witness for C1 on the scenario loop with an always-succeeding
executor. -/
theorem C1_witness :
    ∃ res s', Loop.run execZero sEx "L" false = .ok (res, s') ∧
      (res = true ↔ ∀ it ∈ processedList execZero lmEx.command false (pendingOf sEx "L"),
        execZero (buildCmd lmEx.command it.item) = 0) := by
  obtain ⟨res, s', h1, _, h3⟩ :=
    C1_run_outcomes execZero sEx "L" false lmEx (by rfl) (by decide)
  exact ⟨res, s', h1, h3⟩

/-- Witness for C2 on the scenario loop. -/
theorem C2_witness :
    ∃ res s', Loop.run execZero sEx "L" true = .ok (res, s') ∧
      (∀ it ∈ sEx.items, it.status ≠ ItemStatus.PENDING → findItem s' it.id = some it) ∧
      (∀ it ∈ pendingOf sEx "L",
        findItem s' it.id = some (itemOutcome execZero lmEx.command it)) := by
  obtain ⟨res, s', h1, h2, _, _, h5⟩ :=
    C2_resumability execZero sEx "L" true lmEx (by rfl) (by decide)
  exact ⟨res, s', h1, h2, (h5 rfl).2⟩

/-- Witness for C3 on the scenario loop with the executor that fails
item "a". -/
theorem C3_witness :
    ∃ s', Loop.run execFailA sEx "L" false = .ok (false, s') ∧
      (∀ it ∈ ((pendingOf sEx "L").dropWhile (itemOk execFailA lmEx.command)).drop 1,
        findItem s' it.id = some it ∧ it.status = ItemStatus.PENDING) := by
  obtain ⟨s', h1, h2, _⟩ :=
    C3_stop_or_continue execFailA sEx "L" false lmEx (by rfl) (by decide) (by decide)
  exact ⟨s', h1, h2 rfl⟩

/-- Witness for C4 on the template `["echo"]`. -/
theorem C4_witness :
    buildCmd (cliCreateCommand ["echo"]) "a" = joinSpace ["echo"] ++ " " ++ "a" :=
  (C4_placeholder_appended ["echo"] (by decide) (by decide)).2.1 "a"

/-- Witness for the amended C5 on the empty store. -/
theorem C5_witness :
    Loop.run execZero sEmpty "L" false = .error (.NotFound "L") ∧
    Loop.reset sEmpty "L" = .error (.NotFound "L") ∧
    Loop.get_progress sEmpty "L" = (0, 0, 0, 0) ∧
    (∃ s', Loop.add_items sEmpty "L" ["x"] = .ok s') := by
  obtain ⟨h1, h2, _, _, _, _, _, h8, h9⟩ :=
    C5_amended execZero false sEmpty "L" "M" "echo" ["x"] (by rfl)
  exact ⟨h1, h2, h8, h9⟩

/-- Witness for C6 on the scenario loop. -/
theorem C6_witness :
    ∃ s', Loop.delete sEx "L" = .ok s' ∧
      getLoop s' "L" = none ∧ Loop.list_items s' "L" = [] ∧ itemsOf s' "L" = [] := by
  obtain ⟨s', h1, h2, h3, h4, _⟩ := C6_delete_cascades sEx "L" lmEx (by rfl)
  exact ⟨s', h1, h2, h3, h4⟩

/-- Witness for C7 copying the scenario loop to a fresh id. -/
theorem C7_witness :
    ∃ s', Loop.copy_to sEx "L" "M" = .ok s' ∧
      (itemsOf s' "M").map (fun it => (it.item, it.status, it.attempts, it.last_error))
        = (itemsOf sEx "L").map (fun it => (it.item, it.status, it.attempts, it.last_error)) ∧
      itemsOf s' "L" = itemsOf sEx "L" := by
  have hwf : StoreWF sEx := by
    unfold StoreWF
    exact ⟨by decide, by decide, by decide, by decide⟩
  obtain ⟨s', h1, h2, h3, _⟩ := (C7_copy_snapshot sEx "L" "M" lmEx (by rfl) hwf).2 (by rfl)
  exact ⟨s', h1, h2, h3⟩

/-- Witness for C8 replacing the scenario loop's items. -/
theorem C8_witness :
    ∃ s', Loop.replace_items sEx "L" ["n1", "n2"] = .ok s' ∧
      (itemsOf s' "L").map (fun it => (it.item, it.status, it.attempts, it.last_error))
        = [("n1", ItemStatus.PENDING, 0, none), ("n2", ItemStatus.PENDING, 0, none)] := by
  have hwf : StoreWF sEx := by
    unfold StoreWF
    exact ⟨by decide, by decide, by decide, by decide⟩
  obtain ⟨s', h1, _, h3, _, _⟩ := C8_replace_items sEx "L" lmEx ["n1", "n2"] (by rfl) hwf
  exact ⟨s', h1, h3⟩

/-- Witness for C9 on a fully processed loop. -/
theorem C9_witness : Loop.run execZero sDone "L" false = .ok (true, sDone) :=
  C9_no_pending_noop execZero sDone "L" false lmEx (by rfl) (by rfl)

/-- Witness for C10 on the empty store. -/
theorem C10_witness : Loop.get_progress sEmpty "x" = (0, 0, 0, 0) :=
  (C10_progress_sum sEmpty "x").2 (by rfl)

end Loopy
